import Mathlib

/-!
Verification development for the comfy-model-manager repository
(Go sources: main.go, config.go, scanner part of main.go, the workflow
parser, the HuggingFace and CivitAI clients, and the download manager).

The Go code is shallowly embedded: filesystem access becomes an explicit
stat oracle, HTTP traffic becomes explicit request values and response
parameters, and the retry loop becomes a structurally recursive function
over an oracle of per-attempt outcomes.  Definitions follow the Go source
function by function; definitions whose name starts with `spec` instead
follow the specification's words and are compared with the source-derived
ones by theorem.
-/

namespace CMM

/-! ## String helpers (embedding Go's strings / path/filepath operations) -/

/-- Embedding of a prefix test on character lists (used to embed
`strings.Contains` and `strings.HasSuffix`). -/
def listHasPrefix : List Char → List Char → Bool
  | _, [] => true
  | [], _ :: _ => false
  | a :: as, b :: bs => a == b && listHasPrefix as bs

/-- `listContains l pat` holds when `pat` occurs as a contiguous run of `l`;
embeds Go's `strings.Contains` after converting both sides to char lists. -/
def listContains (pat : List Char) : List Char → Bool
  | [] => pat.isEmpty
  | a :: as => listHasPrefix (a :: as) pat || listContains pat as

/-- Embedding of Go `strings.Contains`. -/
def strContainsSub (s pat : String) : Bool :=
  listContains pat.data s.data

/-- Embedding of Go `strings.HasSuffix`. -/
def strHasSuffix (s suf : String) : Bool :=
  listHasPrefix s.data.reverse suf.data.reverse

/-- Embedding of Go `strings.TrimSuffix`: drop `suf` from the end of `s`
when it is a suffix, otherwise return `s` unchanged. -/
def strTrimSuffix (s suf : String) : String :=
  if strHasSuffix s suf then ⟨s.data.take (s.data.length - suf.data.length)⟩ else s

/-- Embedding of Go `filepath.Ext`: the suffix of the final slash-separated
element starting at its last dot, empty when that element has no dot. -/
def goExt (p : String) : String :=
  let rev := p.data.reverse.takeWhile (fun c => c ≠ '/')
  if rev.contains '.' then ⟨('.' :: (rev.takeWhile (fun c => c ≠ '.')).reverse)⟩ else ""

/-- Embedding of Go `filepath.Dir` on already-clean slash-separated paths:
everything before the final slash, `.` when there is none. -/
def goDir (p : String) : String :=
  let rev := p.data.reverse
  let rest := rev.dropWhile (fun c => c ≠ '/')
  match rest with
  | [] => "."
  | _ :: r => if r.isEmpty then "/" else ⟨r.reverse⟩

/-- Embedding of Go `filepath.Join` on already-clean components. -/
def goJoin (a b : String) : String :=
  if a = "" then b else if b = "" then a else a ++ "/" ++ b

/-! ## Data model (config.go) -/

/-- Embedding of the `Model` struct (config.go): a model referenced by a
workflow.  `type` is the `ModelType` string. -/
structure Model where
  name : String
  type : String
  hash : String
  localPath : String
  size : Int
  isPresent : Bool
deriving DecidableEq, Repr

/-- Embedding of the `Config` struct fields used by the core. -/
structure Config where
  comfyUIPath : String
  huggingFaceToken : String
  civitAIToken : String
  maxWorkers : Nat
  retryAttempts : Nat
deriving DecidableEq, Repr

/-- Embedding of `DefaultConfig` (config.go). -/
def DefaultConfig : Config :=
  { comfyUIPath := "/workspace/ComfyUI"
    huggingFaceToken := ""
    civitAIToken := ""
    maxWorkers := 3
    retryAttempts := 3 }

/-! ## Filesystem stat oracle and the presence scanner (main.go) -/

/-- Outcome of one `os.Stat` call: a dirent with its directory flag, absence,
or an access error (permission, I/O). -/
inductive StatResult where
  | found (isDir : Bool)
  | notFound
  | statError
deriving DecidableEq, Repr

/-- A filesystem is modelled by its stat oracle. -/
def Fs := String → StatResult

/-- Embedding of `fileExists` (main.go): `os.Stat` succeeded and the entry is
not a directory.  Both absence and a stat error yield `false`. -/
def fileExists (fs : Fs) (path : String) : Bool :=
  match fs path with
  | .found d => !d
  | _ => false

/-- Embedding of `dirExists` (main.go). -/
def dirExists (fs : Fs) (path : String) : Bool :=
  match fs path with
  | .found d => d
  | _ => false

/-- The candidate-extension list of `checkModelExists` (main.go), in source
order. -/
def extensions : List String :=
  [".safetensors", ".ckpt", ".pt", ".pth", ".bin", ".yaml", ".json"]

/-- The extension-probing loop of `checkModelExists` (main.go): try the base
name under each candidate extension in order. -/
def tryExtensions (fs : Fs) (dirPath baseNameWithoutExt : String) : List String → Bool
  | [] => false
  | ext :: rest =>
    if fileExists fs (goJoin dirPath (baseNameWithoutExt ++ ext)) then true
    else tryExtensions fs dirPath baseNameWithoutExt rest

/-- Embedding of `checkModelExists` (main.go): exact path as a regular file,
then the base name under each candidate extension, then the path as a
directory.  Returns the boolean together with the Go error value, which is
`nil` on every path of the source. -/
def checkModelExists (fs : Fs) (model : Model) : Bool × Option String :=
  if fileExists fs model.localPath then (true, none)
  else
    let baseNameWithoutExt := strTrimSuffix model.name (goExt model.name)
    let dirPath := goDir model.localPath
    if tryExtensions fs dirPath baseNameWithoutExt extensions then (true, none)
    else if dirExists fs model.localPath then (true, none)
    else (false, none)

/-- Embedding of `ScanModels` (main.go): partition the models into present
and missing, aborting with an error if `checkModelExists` reports one. -/
def scanModels (fs : Fs) : List Model → Except String (List Model × List Model)
  | [] => .ok ([], [])
  | m :: rest =>
    match checkModelExists fs m with
    | (_, some e) => .error ("error checking model " ++ m.name ++ ": " ++ e)
    | (exists?, none) =>
      let m' := { m with isPresent := exists? }
      match scanModels fs rest with
      | .error e => .error e
      | .ok (p, mi) =>
        if exists? then .ok (m' :: p, mi) else .ok (p, m' :: mi)

/-- The ordered probe list the specification describes for the presence
check: the exact path as a regular file, each candidate extension as a
regular file, then the path as a directory.  The boolean marks a directory
probe. -/
def probeList (model : Model) : List (String × Bool) :=
  let baseNameWithoutExt := strTrimSuffix model.name (goExt model.name)
  let dirPath := goDir model.localPath
  (model.localPath, false)
    :: (extensions.map (fun ext => (goJoin dirPath (baseNameWithoutExt ++ ext), false)))
    ++ [(model.localPath, true)]

/-- A probe succeeds when the stat oracle reports a matching entry. -/
def probeHolds (fs : Fs) (p : String × Bool) : Bool :=
  if p.2 then dirExists fs p.1 else fileExists fs p.1

/-- Modelled from the spec: first-match classification over the ordered
probe list of the presence check. -/
def specOrderedCheck (fs : Fs) (model : Model) : Bool :=
  (probeList model).any (probeHolds fs)

/-- A filesystem holding exactly one regular file, used by the scanner
witnesses. -/
def fsC6 : Fs := fun p =>
  if p = "root/models/loras/b.safetensors" then .found false else .notFound

/-- A reference whose resolved path is the one regular file of `fsC6`. -/
def mC6 : Model :=
  { name := "b.safetensors"
    type := "loras"
    hash := ""
    localPath := "root/models/loras/b.safetensors"
    size := 0
    isPresent := false }

/-! ## Error classification and the retry loop (download manager) -/

/-- Go's ASCII case lowering as used on the error strings here; the
signature substrings are plain ASCII, so this matches `strings.ToLower`
on every string the classifier compares. -/
def charToLower (c : Char) : Char :=
  if 'A' ≤ c ∧ c ≤ 'Z' then Char.ofNat (c.toNat + 32) else c

/-- Embedding of `strings.ToLower` for ASCII content. -/
def strToLower (s : String) : String :=
  ⟨s.data.map charToLower⟩

/-- The terminal-error signature list of `isUnrecoverableError`, in source
order. -/
def unrecoverableErrors : List String :=
  ["404", "403", "401", "not found", "forbidden", "unauthorized"]

/-- Embedding of `isUnrecoverableError` (download manager): the lowered
error message contains one of the terminal signatures. -/
def isUnrecoverableError (err : String) : Bool :=
  unrecoverableErrors.any (fun e => strContainsSub (strToLower err) e)

/-- Outcome of one `performDownload` call inside the retry loop. -/
inductive AttemptResult where
  | success
  | failure (msg : String)
deriving DecidableEq, Repr

/-- The retry loop of `downloadModel` (download manager), with the
per-attempt outcome supplied by an oracle.  `attempt` is the Go loop index,
`fuel` the remaining iterations of `attempt < RetryAttempts`.  Returns the
number of attempts performed, the list of sleep durations in seconds in the
order they were inserted, and the returned error (`none` is Go's `nil`). -/
def loopGo (outcomes : Nat → AttemptResult) :
    Nat → Nat → Option String → Nat × List Nat × Option String
  | _, 0, lastErr => (0, [], lastErr)
  | attempt, fuel + 1, _lastErr =>
    let d : List Nat := if attempt = 0 then [] else [attempt * 2]
    match outcomes attempt with
    | .success => (1, d, none)
    | .failure msg =>
      if isUnrecoverableError msg then (1, d, some msg)
      else
        let r := loopGo outcomes (attempt + 1) fuel (some msg)
        (r.1 + 1, d ++ r.2.1, r.2.2)

/-- Embedding of `downloadModel` (download manager): register progress,
ensure the directory (an error there returns immediately), then run the
retry loop.  The progress-registry side is modelled by `DMState` below. -/
def downloadModel (mkdirErr : Option String) (outcomes : Nat → AttemptResult)
    (retryAttempts : Nat) : Nat × List Nat × Option String :=
  match mkdirErr with
  | some e => (0, [], some e)
  | none => loopGo outcomes 0 retryAttempts none

/-! ## The transfer pipeline (downloadFile helper, clients, performDownload) -/

/-- A filesystem with contents: path maps to the byte list of the file
stored there (`none` is absence).  Bytes are `Nat`. -/
def FileSys := String → Option (List Nat)

/-- One filesystem effect of the transfer pipeline. -/
inductive FsEvent where
  | write (path : String) (chunk : List Nat)
  | rename (src dst : String)
deriving DecidableEq, Repr

/-- The chunk-copy loop of the `downloadFile` helper: append each read
chunk to the staging file, emitting one write event per chunk.  Returns the
final staging contents and the event list. -/
def writeChunks (tmpPath : String) (init : List Nat) :
    List (List Nat) → List Nat × List FsEvent
  | [] => (init, [])
  | c :: rest =>
    let r := writeChunks tmpPath (init ++ c) rest
    (r.1, .write tmpPath c :: r.2)

/-- Embedding of the `downloadFile` helper (download manager): stage at
`destPath ++ ".tmp"`, resuming by appending after the existing staging
bytes when the staging file already exists (`O_APPEND`) and truncating
otherwise; copy the reader's chunks; on clean EOF rename the staging file
onto `destPath`.  `chunks` are the successfully read chunks, `readErr` an
error ending the read loop after them; `renamer` gives the `os.Rename`
outcome.  The `totalSize` argument of the source only feeds the progress
callback, which is modelled separately by the progress registry. -/
def goDownloadFile (fs : FileSys) (chunks : List (List Nat)) (readErr : Option String)
    (destPath : String) (renamer : String → String → Option String) :
    FileSys × List FsEvent × Option String :=
  let tempPath := destPath ++ ".tmp"
  let init : List Nat := match fs tempPath with | some c => c | none => []
  let w := writeChunks tempPath init chunks
  let fs1 : FileSys := fun p => if p = tempPath then some w.1 else fs p
  match readErr with
  | some e => (fs1, w.2, some e)
  | none =>
    match renamer tempPath destPath with
    | some re => (fs1, w.2, some ("failed to move temp file: " ++ re))
    | none =>
      let fs2 : FileSys := fun p =>
        if p = destPath then some w.1 else if p = tempPath then none else fs p
      (fs2, w.2 ++ [.rename tempPath destPath], none)

/-- An outgoing HTTP request as the clients build it. -/
structure HttpRequest where
  method : String
  url : String
  headers : List (String × String)
deriving DecidableEq, Repr

/-- Embedding of the request construction of `HuggingFaceClient.DownloadFile`:
a plain GET with only an optional Authorization header. -/
def hfDownloadFileRequest (token downloadURL : String) : HttpRequest :=
  { method := "GET"
    url := downloadURL
    headers := if token = "" then [] else [("Authorization", "Bearer " ++ token)] }

/-- Embedding of the request construction of `CivitAIClient.DownloadFile`:
when a token is set and the URL lacks a `token=` parameter the request is
rebuilt against the URL with the token appended (dropping the header set on
the discarded first request). -/
def civitDownloadFileRequest (token downloadURL : String) : HttpRequest :=
  if token = "" then { method := "GET", url := downloadURL, headers := [] }
  else if strContainsSub downloadURL "token=" then
    { method := "GET", url := downloadURL
      headers := [("Authorization", "Bearer " ++ token)] }
  else
    let sep := if strContainsSub downloadURL "?" then "&" else "?"
    { method := "GET", url := downloadURL ++ sep ++ "token=" ++ token, headers := [] }

/-- The response a client observes: HTTP status, body text (used in the
CivitAI error message), the chunk sequence of the body stream, and an
optional mid-stream read error. -/
structure DownloadResponse where
  ok : Bool
  status : String
  bodyText : String
  chunks : List (List Nat)
  readErr : Option String

/-- Embedding of `HuggingFaceClient.DownloadFile` after the request: a
non-OK status is an error, otherwise the body is streamed through the
`downloadFile` helper at the given destination. -/
def hfClientDownloadFile (fs : FileSys) (resp : DownloadResponse) (destPath : String)
    (renamer : String → String → Option String) : FileSys × List FsEvent × Option String :=
  if resp.ok then goDownloadFile fs resp.chunks resp.readErr destPath renamer
  else (fs, [], some ("download failed: " ++ resp.status))

/-- Embedding of `CivitAIClient.DownloadFile` after the request. -/
def civitClientDownloadFile (fs : FileSys) (resp : DownloadResponse) (destPath : String)
    (renamer : String → String → Option String) : FileSys × List FsEvent × Option String :=
  if resp.ok then goDownloadFile fs resp.chunks resp.readErr destPath renamer
  else (fs, [], some ("download failed: " ++ resp.status ++ " - " ++ resp.bodyText))

/-- Embedding of `performDownload` (download manager): stage at
`localPath ++ ".tmp"`, dispatch on the result source, and on client success
rename the staging path onto the final path.  The `resumeFrom` stat of the
source only offsets the progress callback, modelled separately. -/
def performDownload (fs : FileSys) (source : String) (resp : DownloadResponse)
    (localPath : String) (renamer : String → String → Option String) :
    FileSys × List FsEvent × Option String :=
  let tempPath := localPath ++ ".tmp"
  let dl :=
    if source = "huggingface" then hfClientDownloadFile fs resp tempPath renamer
    else if source = "civitai" then civitClientDownloadFile fs resp tempPath renamer
    else (fs, ([] : List FsEvent), some ("unknown source: " ++ source))
  match dl.2.2 with
  | some _ => dl
  | none =>
    match renamer tempPath localPath with
    | some re => (dl.1, dl.2.1, some ("failed to move downloaded file: " ++ re))
    | none =>
      let fs2 : FileSys := fun p =>
        if p = localPath then dl.1 tempPath else if p = tempPath then none else dl.1 p
      (fs2, dl.2.1 ++ [.rename tempPath localPath], none)

/-! ## Remote search (main.go: searchModel, searchModels, cleanModelName) -/

/-- Embedding of the `SearchResult` struct. -/
structure SearchResult where
  name : String
  source : String
  downloadURL : String
  hash : String
  size : Int
  modelType : String
deriving DecidableEq, Repr

/-- One registry query the resolver issues. -/
inductive Query where
  | hfQ (term ty : String)
  | civitQ (term ty : String)
  | hashQ (h : String)
deriving DecidableEq, Repr

/-- The suffix list of `cleanModelName`, in source order. -/
def suffixesToClean : List String :=
  ["_fp16", "_fp32", "-fp16", "-fp32", "_pruned", "-pruned"]

/-- Embedding of `cleanModelName` (main.go). -/
def cleanModelName (name : String) : String :=
  let base := strTrimSuffix name (goExt name)
  suffixesToClean.foldl (fun acc suf => strTrimSuffix acc suf) base

/-- Embedding of `searchModel` (main.go) over registry oracles, returning
the queries issued in order together with the chosen candidate.  `.error`
is a failed registry call, which the source treats like an empty result. -/
def searchModel (cfg : Config)
    (hfSearch : String → String → Except String (List SearchResult))
    (civitSearch : String → String → Except String (List SearchResult))
    (civitByHash : String → Except String (Option SearchResult))
    (model : Model) : List Query × Option SearchResult :=
  let searchName := cleanModelName model.name
  let hfStep : List Query × Option SearchResult :=
    if cfg.huggingFaceToken = "" then ([], none)
    else
      ([.hfQ searchName model.type],
        match hfSearch searchName model.type with
        | .ok (r :: _) => some r
        | _ => none)
  match hfStep with
  | (qs, some r) => (qs, some r)
  | (qs, none) =>
    let cq := Query.civitQ searchName model.type
    match civitSearch searchName model.type with
    | .ok (r :: _) => (qs ++ [cq], some r)
    | _ =>
      if model.hash = "" then (qs ++ [cq], none)
      else if cfg.civitAIToken = "" then (qs ++ [cq], none)
      else
        match civitByHash model.hash with
        | .ok (some r) =>
          (qs ++ [cq, .hashQ model.hash], some { r with modelType := model.type })
        | _ => (qs ++ [cq, .hashQ model.hash], none)

/-- Embedding of `searchModels` (main.go): the shared result mapping after
all per-model tasks finished, as an association list in input order (the
source's fan-out writes are keyed by name under one lock; order in a Go map
is immaterial). -/
def searchModels (cfg : Config)
    (hfSearch : String → String → Except String (List SearchResult))
    (civitSearch : String → String → Except String (List SearchResult))
    (civitByHash : String → Except String (Option SearchResult)) :
    List Model → List (String × SearchResult)
  | [] => []
  | m :: rest =>
    match (searchModel cfg hfSearch civitSearch civitByHash m).2 with
    | some res => (m.name, res) :: searchModels cfg hfSearch civitSearch civitByHash rest
    | none => searchModels cfg hfSearch civitSearch civitByHash rest

/-- Modelled from the spec: the candidate registry A yields, available only
when a credential is configured. -/
def specHfMatch (cfg : Config)
    (hfSearch : String → String → Except String (List SearchResult))
    (term ty : String) : Option SearchResult :=
  if cfg.huggingFaceToken = "" then none
  else match hfSearch term ty with
    | .ok (r :: _) => some r
    | _ => none

/-- Modelled from the spec: the candidate registry B yields by name. -/
def specCivitMatch
    (civitSearch : String → String → Except String (List SearchResult))
    (term ty : String) : Option SearchResult :=
  match civitSearch term ty with
  | .ok (r :: _) => some r
  | _ => none

/-- Modelled from the spec (as amended): the queries the resolver issues —
registry A first when a credential is configured, registry B next when A
yielded nothing, and the hash lookup when neither name search matched, the
reference carries a hash, and a registry-B credential is configured. -/
def specQueries (cfg : Config)
    (hfSearch : String → String → Except String (List SearchResult))
    (civitSearch : String → String → Except String (List SearchResult))
    (model : Model) : List Query :=
  let term := cleanModelName model.name
  (if cfg.huggingFaceToken = "" then [] else [.hfQ term model.type]) ++
    if (specHfMatch cfg hfSearch term model.type).isSome then []
    else
      [.civitQ term model.type] ++
        if (specCivitMatch civitSearch term model.type).isSome then []
        else if model.hash ≠ "" ∧ cfg.civitAIToken ≠ "" then [.hashQ model.hash]
        else []

/-- Modelled from the spec (as amended): the chosen candidate — the first
match of the first registry that yields one, with the gated hash fallback
last. -/
def specChoice (cfg : Config)
    (hfSearch : String → String → Except String (List SearchResult))
    (civitSearch : String → String → Except String (List SearchResult))
    (civitByHash : String → Except String (Option SearchResult))
    (model : Model) : Option SearchResult :=
  let term := cleanModelName model.name
  match specHfMatch cfg hfSearch term model.type with
  | some r => some r
  | none =>
    match specCivitMatch civitSearch term model.type with
    | some r => some r
    | none =>
      if model.hash ≠ "" ∧ cfg.civitAIToken ≠ "" then
        match civitByHash model.hash with
        | .ok (some r) => some { r with modelType := model.type }
        | _ => none
      else none

/-! ## Progress registry (download manager: downloads map, GetProgress) -/

/-- Embedding of the `DownloadProgress` struct.  One instance lives on the
heap per artifact name; the registry map stores pointers to it. -/
structure DownloadProgress where
  modelName : String
  downloaded : Int
  total : Int
  startTime : Nat
  error : Option String
  completed : Bool
deriving DecidableEq, Repr

/-- The mutable state of the `DownloadManager`: a heap of
`DownloadProgress` records addressed by `Nat` pointers, and the
`downloads` map from artifact name to pointer. -/
structure DMState where
  heap : Nat → DownloadProgress
  downloads : List (String × Nat)

/-- Embedding of `GetProgress` (download manager): under the lock, copy the
map.  The copy duplicates the name-to-pointer entries; the pointed-to
`DownloadProgress` records are shared with the registry. -/
def GetProgress (s : DMState) : List (String × Nat) :=
  s.downloads

/-- Embedding of the progress callback of `performDownload`: under the
lock, set `Downloaded` to `downloaded + resumeFrom` and `Total` to `total`
on the record at `addr`. -/
def progressUpdate (s : DMState) (addr : Nat) (downloaded total resumeFrom : Int) :
    DMState :=
  { s with
    heap := fun a =>
      if a = addr then
        { s.heap a with downloaded := downloaded + resumeFrom, total := total }
      else s.heap a }

/-! ## Concrete fixtures used by counterexamples and witnesses -/

/-- The everywhere-erroring filesystem: every `os.Stat` fails with an
access error. -/
def fsErr : Fs := fun _ => StatResult.statError

/-- A concrete workflow reference used by the scan counterexamples. -/
def mC7 : Model :=
  { name := "a.safetensors"
    type := "checkpoints"
    hash := ""
    localPath := "/workspace/ComfyUI/models/checkpoints/a.safetensors"
    size := 0
    isPresent := false }

/-- The outcome oracle of the C4 witness: a recoverable network failure,
then a terminal 404. -/
def ocC4 : Nat → AttemptResult := fun n =>
  if n = 0 then .failure "connection reset by peer"
  else .failure "server returned 404 not found"

/-- An always-succeeding `os.Rename`. -/
def okRename : String → String → Option String := fun _ _ => none

/-- A response whose body is ten bytes in one chunk, read cleanly, with the
server declaring the full ten-byte total. -/
def resp10 : DownloadResponse :=
  { ok := true
    status := "200 OK"
    bodyText := ""
    chunks := [[0, 1, 2, 3, 4, 5, 6, 7, 8, 9]]
    readErr := none }

/-- A rename oracle failing only at the publish step of `m/a` with the
Linux cross-device error text. -/
def crossDev : String → String → Option String := fun src dst =>
  if src = "m/a.tmp" ∧ dst = "m/a" then some "invalid cross-device link" else none

/-- The filesystem of an interrupted transfer of
`m/checkpoints/a.safetensors`: five bytes already sit in the helper's
staging file. -/
def fs0 : FileSys := fun p =>
  if p = "m/checkpoints/a.safetensors.tmp.tmp" then some [9, 9, 9, 9, 9] else none

/-- A filesystem with no files. -/
def fsEmpty : FileSys := fun _ => none

/-- A clean-EOF OK response carrying the given chunks. -/
def okResp (chunks : List (List Nat)) : DownloadResponse :=
  { ok := true, status := "200 OK", bodyText := "", chunks := chunks, readErr := none }

/-- Resolver fixture: HuggingFace credential set, CivitAI credential empty. -/
def cfgC8 : Config :=
  { comfyUIPath := "/workspace/ComfyUI"
    huggingFaceToken := "hf-token"
    civitAIToken := ""
    maxWorkers := 3
    retryAttempts := 3 }

/-- A registry search oracle returning no candidates. -/
def hfEmpty : String → String → Except String (List SearchResult) := fun _ _ => .ok []

/-- A registry search oracle returning no candidates. -/
def cvEmpty : String → String → Except String (List SearchResult) := fun _ _ => .ok []

/-- A hash-lookup oracle finding nothing. -/
def bhNone : String → Except String (Option SearchResult) := fun _ => .ok none

/-- A reference carrying a content hash. -/
def mC8 : Model :=
  { name := "model_fp16.safetensors"
    type := "checkpoints"
    hash := "abc"
    localPath := "/workspace/ComfyUI/models/checkpoints/model_fp16.safetensors"
    size := 0
    isPresent := false }

/-- A fresh progress record for artifact `m`. -/
def p0 : DownloadProgress :=
  { modelName := "m", downloaded := 0, total := 0, startTime := 0
    error := none, completed := false }

/-- A registry state holding one artifact whose record lives at address 0. -/
def s0 : DMState :=
  { heap := fun _ => p0, downloads := [("m", 0)] }

/-! ## Shared helper lemmas -/

/-- The extension loop is the ordered any-match over the candidate list. -/
theorem tryExtensions_any (fs : Fs) (dirPath base : String) :
    ∀ exts : List String,
      tryExtensions fs dirPath base exts =
        exts.any (fun ext => fileExists fs (goJoin dirPath (base ++ ext)))
  | [] => rfl
  | ext :: rest => by
    cases hfe : fileExists fs (goJoin dirPath (base ++ ext)) <;>
      simp [tryExtensions, hfe, tryExtensions_any fs dirPath base rest]

/-- `checkModelExists` reports the Go `nil` error on every input. -/
theorem checkModelExists_no_error (fs : Fs) (m : Model) :
    (checkModelExists fs m).2 = none := by
  unfold checkModelExists
  dsimp only
  repeat' split
  all_goals rfl

/-- The presence boolean of `checkModelExists` is the disjunction of the
exact-file probe, the extension probes and the directory probe. -/
theorem checkModelExists_fst (fs : Fs) (m : Model) :
    (checkModelExists fs m).1 =
      (fileExists fs m.localPath ||
        tryExtensions fs (goDir m.localPath)
          (strTrimSuffix m.name (goExt m.name)) extensions ||
        dirExists fs m.localPath) := by
  unfold checkModelExists
  dsimp only
  repeat' split
  all_goals simp_all

/-- `scanModels` never aborts and returns the order-preserving partition of
its input by `checkModelExists`, with the presence flag set accordingly. -/
theorem scanModels_characterization (fs : Fs) :
    ∀ models : List Model,
      scanModels fs models =
        .ok ((models.filter (fun x => (checkModelExists fs x).1)).map
              (fun x => { x with isPresent := true }),
             (models.filter (fun x => !(checkModelExists fs x).1)).map
              (fun x => { x with isPresent := false }))
  | [] => rfl
  | m :: rest => by
    have hpair : checkModelExists fs m = ((checkModelExists fs m).1, none) := by
      rw [← checkModelExists_no_error fs m]
    rw [scanModels, hpair, scanModels_characterization fs rest]
    cases hx : (checkModelExists fs m).1 <;> simp [hx, List.filter_cons]

/-! ## Claim C6 — presence-check order and classification -/

/-- C6: the presence check classifies by the ordered probes — the resolved
path as a regular file, then the base name under each of
.safetensors/.ckpt/.pt/.pth/.bin/.yaml/.json as a regular file in the same
directory, then the resolved path as a directory — first match wins, and a
reference matching no probe is classified missing. -/
theorem presence_check_ordered_probes (fs : Fs) (m : Model) :
    (checkModelExists fs m).1 = specOrderedCheck fs m ∧
    ((checkModelExists fs m).1 = false ↔
      ∀ p ∈ probeList m, probeHolds fs p = false) := by
  have hmain : (checkModelExists fs m).1 = specOrderedCheck fs m := by
    rw [checkModelExists_fst, tryExtensions_any]
    have hx : ∀ l : List String,
        (l.map (fun ext =>
            (goJoin (goDir m.localPath) (strTrimSuffix m.name (goExt m.name) ++ ext),
              false))).any (probeHolds fs)
          = l.any (fun ext =>
              fileExists fs
                (goJoin (goDir m.localPath) (strTrimSuffix m.name (goExt m.name) ++ ext))) := by
      intro l
      induction l with
      | nil => rfl
      | cons e r ih => simp [probeHolds, ih]
    unfold specOrderedCheck probeList
    simp only [List.any_cons, List.any_append, List.any_nil, hx]
    simp [probeHolds, Bool.or_assoc, Bool.or_comm, Bool.or_left_comm]
  refine ⟨hmain, ?_⟩
  rw [hmain]
  simp [specOrderedCheck, List.any_eq_false]

/-! ## Claim C10 — the scan output is an exact ordered partition -/

/-- C10: a successful classification partitions the input exactly — the
present and missing lists are the order-preserving filters of the input by
the presence check, every input lands in exactly one of them, and each
returned element's presence flag matches its list. -/
theorem scan_partition (fs : Fs) (models : List Model) :
    scanModels fs models =
      .ok ((models.filter (fun x => (checkModelExists fs x).1)).map
            (fun x => { x with isPresent := true }),
           (models.filter (fun x => !(checkModelExists fs x).1)).map
            (fun x => { x with isPresent := false })) ∧
    (∀ p mi, scanModels fs models = .ok (p, mi) →
      (∀ x ∈ p, x.isPresent = true) ∧ (∀ x ∈ mi, x.isPresent = false) ∧
      p.length + mi.length = models.length) := by
  refine ⟨scanModels_characterization fs models, ?_⟩
  intro p mi h
  rw [scanModels_characterization fs models] at h
  injection h with h
  injection h with h1 h2
  subst h1; subst h2
  refine ⟨?_, ?_, ?_⟩
  · intro x hx
    simp only [List.mem_map] at hx
    obtain ⟨y, _, rfl⟩ := hx
    rfl
  · intro x hx
    simp only [List.mem_map] at hx
    obtain ⟨y, _, rfl⟩ := hx
    rfl
  · simp only [List.length_map]
    exact (List.length_eq_length_filter_add (fun x => (checkModelExists fs x).1)).symm

/-- Witness for C6 at a concrete filesystem and reference. -/
theorem presence_check_ordered_probes_witness :
    (checkModelExists fsC6 mC6).1 = specOrderedCheck fsC6 mC6 :=
  (presence_check_ordered_probes fsC6 mC6).1

/-- Witness for C10 at a concrete filesystem and reference list. -/
theorem scan_partition_witness :
    scanModels fsC6 [mC6] =
      .ok ((([mC6].filter (fun x => (checkModelExists fsC6 x).1)).map
             (fun x => { x with isPresent := true })),
           (([mC6].filter (fun x => !(checkModelExists fsC6 x).1)).map
             (fun x => { x with isPresent := false }))) :=
  (scan_partition fsC6 [mC6]).1

/-! ## Claim C7 — stat errors are swallowed, not propagated -/

/-- C7 counterexample: on a filesystem whose every stat call fails with an
access error, the scan does not abort — it returns successfully and places
the reference in the missing set, so the claimed scan failure and the
claimed exclusion from both output sets are both false. -/
theorem scan_error_swallowed_counterexample :
    fsErr mC7.localPath = StatResult.statError ∧
    scanModels fsErr [mC7] = .ok ([], [mC7]) := by
  constructor
  · rfl
  · rfl

/-- C7 as amended: `fileExists`/`dirExists` swallow stat errors (an access
error reads as absence), `checkModelExists` never reports an error, so the
strict scan never aborts, and a reference whose every stat call fails is
classified missing. -/
theorem scan_errors_read_as_missing (fs : Fs) (models : List Model) (m : Model)
    (herr : ∀ p, fs p = StatResult.statError) :
    (∃ pm, scanModels fs models = .ok pm) ∧
    (checkModelExists fs m).1 = false := by
  constructor
  · exact ⟨_, scanModels_characterization fs models⟩
  · rw [checkModelExists_fst, tryExtensions_any]
    have hfe : ∀ q, fileExists fs q = false := by
      intro q; simp [fileExists, herr q]
    have hde : ∀ q, dirExists fs q = false := by
      intro q; simp [dirExists, herr q]
    simp [hfe, hde]

/-- Witness for the amended C7 at a concrete filesystem and reference. -/
theorem scan_errors_read_as_missing_witness :
    (∃ pm, scanModels fsErr [mC7] = .ok pm) ∧
    (checkModelExists fsErr mC7).1 = false :=
  scan_errors_read_as_missing fsErr [mC7] mC7 (fun _ => rfl)

/-! ## Retry-loop lemmas -/

/-- The loop body does not read the incoming `lastErr` while fuel remains. -/
theorem loopGo_lastErr_indep (oc : Nat → AttemptResult) (a fuel : Nat)
    (e e' : Option String) :
    loopGo oc a (fuel + 1) e = loopGo oc a (fuel + 1) e' := by
  simp [loopGo]

/-- Prepending the sleep of loop index `b` to the sleeps of the later
indices gives the sleeps of the indices starting at `b`. -/
theorem backoff_shift (b m : Nat) :
    (if b = 0 then ([] : List Nat) else [b * 2]) ++
        (List.range m).filterMap
          (fun i => if (b + 1) + i = 0 then none else some (((b + 1) + i) * 2)) =
      (List.range (m + 1)).filterMap
        (fun i => if b + i = 0 then none else some ((b + i) * 2)) := by
  rw [List.range_succ_eq_map, List.filterMap_cons, List.filterMap_map]
  have hfe : ((fun i => if b + i = 0 then none else some ((b + i) * 2)) ∘ Nat.succ) =
      fun i => if (b + 1) + i = 0 then none else some (((b + 1) + i) * 2) := by
    funext i
    have h1 : b + (i + 1) = (b + 1) + i := by omega
    simp [Function.comp, Nat.succ_eq_add_one, h1]
  rw [hfe]
  by_cases hb : b = 0
  · subst hb; simp
  · have hb0 : ¬ (b + 0 = 0) := by omega
    simp [hb, hb0]

/-- Attempt count and sleep trace of the retry loop: at most `fuel` attempts
run, and the sleep before the executed attempt of loop index `a + i` is
`(a + i) * 2` seconds, with no sleep before loop index 0. -/
theorem loopGo_spec (oc : Nat → AttemptResult) (fuel : Nat) :
    ∀ (a : Nat) (e : Option String),
      (loopGo oc a fuel e).1 ≤ fuel ∧
      (loopGo oc a fuel e).2.1 =
        (List.range (loopGo oc a fuel e).1).filterMap
          (fun i => if a + i = 0 then none else some ((a + i) * 2)) := by
  induction fuel with
  | zero => intro a e; simp [loopGo]
  | succ n ih =>
    intro a e
    have hone : ∀ b : Nat,
        (List.range 1).filterMap
            (fun i => if b + i = 0 then none else some ((b + i) * 2)) =
          if b = 0 then [] else [b * 2] := by
      intro b
      have h01 : List.range 1 = [0] := by decide
      rw [h01, List.filterMap_cons]
      by_cases hb : b = 0
      · simp [hb]
      · have hb0 : ¬ (b + 0 = 0) := by omega
        simp [hb, hb0]
    cases hoc : oc a with
    | success =>
      have hred : loopGo oc a (n + 1) e = (1, if a = 0 then [] else [a * 2], none) := by
        simp [loopGo, hoc]
      rw [hred]
      exact ⟨by omega, by rw [hone a]⟩
    | failure msg =>
      by_cases hm : isUnrecoverableError msg
      · have hred : loopGo oc a (n + 1) e =
            (1, if a = 0 then [] else [a * 2], some msg) := by
          simp [loopGo, hoc, hm]
        rw [hred]
        exact ⟨by omega, by rw [hone a]⟩
      · have hred : loopGo oc a (n + 1) e =
            ((loopGo oc (a + 1) n (some msg)).1 + 1,
             (if a = 0 then [] else [a * 2]) ++ (loopGo oc (a + 1) n (some msg)).2.1,
             (loopGo oc (a + 1) n (some msg)).2.2) := by
          simp [loopGo, hoc, hm]
        obtain ⟨ih1, ih2⟩ := ih (a + 1) (some msg)
        rw [hred]
        refine ⟨by dsimp only; omega, ?_⟩
        dsimp only
        rw [ih2, backoff_shift]

/-- At least one attempt runs whenever fuel remains. -/
theorem loopGo_pos (oc : Nat → AttemptResult) (a fuel : Nat) (e : Option String)
    (h : 0 < fuel) : 1 ≤ (loopGo oc a fuel e).1 := by
  obtain ⟨n, rfl⟩ : ∃ n, fuel = n + 1 := ⟨fuel - 1, by omega⟩
  cases hoc : oc a with
  | success =>
    have hred : loopGo oc a (n + 1) e = (1, if a = 0 then [] else [a * 2], none) := by
      simp [loopGo, hoc]
    rw [hred]
  | failure msg =>
    by_cases hm : isUnrecoverableError msg
    · have hred : loopGo oc a (n + 1) e =
          (1, if a = 0 then [] else [a * 2], some msg) := by
        simp [loopGo, hoc, hm]
      rw [hred]
    · have hred : loopGo oc a (n + 1) e =
          ((loopGo oc (a + 1) n (some msg)).1 + 1,
           (if a = 0 then [] else [a * 2]) ++ (loopGo oc (a + 1) n (some msg)).2.1,
           (loopGo oc (a + 1) n (some msg)).2.2) := by
        simp [loopGo, hoc, hm]
      rw [hred]
      dsimp only
      omega

/-- Skipping a run of recoverable failures: after `i` attempts that all fail
recoverably, the loop continues at attempt index `a + i` with `fuel - i`
iterations left. -/
theorem loopGo_skip (oc : Nat → AttemptResult) :
    ∀ (i a fuel : Nat) (e : Option String),
      (∀ j, j < i → ∃ m, oc (a + j) = .failure m ∧ isUnrecoverableError m = false) →
      i ≤ fuel →
      ∃ e', (loopGo oc a fuel e).1 = i + (loopGo oc (a + i) (fuel - i) e').1 := by
  intro i
  induction i with
  | zero => intro a fuel e _ _; exact ⟨e, by simp⟩
  | succ k ih =>
    intro a fuel e hprev hle
    obtain ⟨m0, hm0, hm0r⟩ := hprev 0 (by omega)
    have hm0' : oc a = AttemptResult.failure m0 := by simpa using hm0
    obtain ⟨n, rfl⟩ : ∃ n, fuel = n + 1 := ⟨fuel - 1, by omega⟩
    have hred : loopGo oc a (n + 1) e =
        ((loopGo oc (a + 1) n (some m0)).1 + 1,
         (if a = 0 then [] else [a * 2]) ++ (loopGo oc (a + 1) n (some m0)).2.1,
         (loopGo oc (a + 1) n (some m0)).2.2) := by
      simp [loopGo, hm0', hm0r]
    obtain ⟨e', he'⟩ := ih (a + 1) n (some m0)
      (fun j hj => by
        obtain ⟨m, hm, hmr⟩ := hprev (j + 1) (by omega)
        exact ⟨m, by rw [show a + 1 + j = a + (j + 1) by omega]; exact hm, hmr⟩)
      (by omega)
    refine ⟨e', ?_⟩
    rw [hred]
    dsimp only
    rw [he']
    have h1 : a + 1 + k = a + (k + 1) := by omega
    have h2 : n - k = n + 1 - (k + 1) := by omega
    rw [← h1, ← h2]
    omega

/-! ## Claim C3 — retry limit and linear backoff -/

/-- C3: a job runs at most `RetryAttempts` attempts (default 3), and the
sleep inserted before attempt `k` (k ≥ 1, zero-indexed from the second try)
is exactly `k * 2` seconds — no sleep precedes attempt 0. -/
theorem retry_limit_and_linear_backoff (mkdirErr : Option String)
    (oc : Nat → AttemptResult) (ra : Nat) :
    (downloadModel mkdirErr oc ra).1 ≤ ra ∧
    (downloadModel mkdirErr oc ra).2.1 =
      (List.range (downloadModel mkdirErr oc ra).1).filterMap
        (fun k => if k = 0 then none else some (k * 2)) ∧
    DefaultConfig.retryAttempts = 3 := by
  cases mkdirErr with
  | some e => exact ⟨by simp [downloadModel], by simp [downloadModel], rfl⟩
  | none =>
    obtain ⟨h1, h2⟩ := loopGo_spec oc ra 0 none
    refine ⟨h1, ?_, rfl⟩
    rw [show (downloadModel none oc ra) = loopGo oc 0 ra none from rfl, h2]
    congr 1
    funext i
    simp

/-! ## Claim C4 — terminal signatures stop retries, others keep them going -/

/-- C4: when attempt `i` fails, a message carrying one of the terminal
signatures (401/403/404/not found/forbidden/unauthorized, case-insensitive
substring) ends the job after attempt `i`, while any other failure leads to
a further attempt whenever the configured limit allows one, and the limit is
never exceeded. -/
theorem terminal_vs_retryable (oc : Nat → AttemptResult) (ra i : Nat) (msg : String)
    (hi : i < ra)
    (hprev : ∀ j, j < i → ∃ m, oc j = .failure m ∧ isUnrecoverableError m = false)
    (hcur : oc i = .failure msg) :
    (isUnrecoverableError msg = true → (downloadModel none oc ra).1 = i + 1) ∧
    (isUnrecoverableError msg = false → i + 1 < ra →
      i + 2 ≤ (downloadModel none oc ra).1) ∧
    (downloadModel none oc ra).1 ≤ ra := by
  obtain ⟨e', he'⟩ := loopGo_skip oc i 0 ra none
    (fun j hj => by simpa using hprev j hj) (by omega)
  have hdm : (downloadModel none oc ra).1 = i + (loopGo oc i (ra - i) e').1 := by
    simpa using he'
  obtain ⟨n, hn⟩ : ∃ n, ra - i = n + 1 := ⟨ra - i - 1, by omega⟩
  refine ⟨?_, ?_, (loopGo_spec oc ra 0 none).1⟩
  · intro hterm
    have hred : loopGo oc i (n + 1) e' = (1, if i = 0 then [] else [i * 2], some msg) := by
      simp [loopGo, hcur, hterm]
    rw [hdm, hn, hred]
  · intro hrec hlt
    have hred : loopGo oc i (n + 1) e' =
        ((loopGo oc (i + 1) n (some msg)).1 + 1,
         (if i = 0 then [] else [i * 2]) ++ (loopGo oc (i + 1) n (some msg)).2.1,
         (loopGo oc (i + 1) n (some msg)).2.2) := by
      simp [loopGo, hcur, hrec]
    have hpos : 1 ≤ (loopGo oc (i + 1) n (some msg)).1 :=
      loopGo_pos oc (i + 1) n (some msg) (by omega)
    rw [hdm, hn, hred]
    dsimp only
    omega

/-- Witness for C4: with the default three tries, the terminal 404 on the
second attempt ends the job at exactly two attempts. -/
theorem terminal_vs_retryable_witness : (downloadModel none ocC4 3).1 = 2 :=
  (terminal_vs_retryable ocC4 3 1 "server returned 404 not found"
      (by omega)
      (fun j hj => by
        have hj0 : j = 0 := by omega
        subst hj0
        exact ⟨"connection reset by peer", rfl, by decide⟩)
      rfl).1 (by decide)

/-- The chunk-copy loop appends the chunks in order and emits exactly one
staging-file write per chunk. -/
theorem writeChunks_spec (tmpPath : String) :
    ∀ (chunks : List (List Nat)) (init : List Nat),
      (writeChunks tmpPath init chunks).1 = init ++ chunks.flatten ∧
      (writeChunks tmpPath init chunks).2 =
        chunks.map (fun c => FsEvent.write tmpPath c)
  | [], init => by simp [writeChunks]
  | c :: rest, init => by
    obtain ⟨h1, h2⟩ := writeChunks_spec tmpPath (rest) (init ++ c)
    simp [writeChunks, h1, h2, List.append_assoc]

/-! ## Claim C5 — a rename failure is in fact retried -/

/-- C5 counterexample: a publish-step rename failure surfaces as the error
text `failed to move downloaded file: invalid cross-device link`, which the
classifier calls recoverable, so with the default limit the job runs all
three attempts — a retry does follow a rename failure, contradicting the
claim that no retry follows one. -/
theorem rename_failure_retried_counterexample :
    (performDownload (fun _ => none) "huggingface" resp10 "m/a" crossDev).2.2 =
      some "failed to move downloaded file: invalid cross-device link" ∧
    isUnrecoverableError "failed to move downloaded file: invalid cross-device link"
      = false ∧
    (downloadModel none
        (fun _ => .failure "failed to move downloaded file: invalid cross-device link")
        DefaultConfig.retryAttempts).1 = 3 := by
  refine ⟨by decide, by decide, by decide⟩

/-- C5 as amended: a rename failure at the publish step is classified by
the same substring rules as any other error — when its message carries no
terminal signature (as with a cross-device rename error), the job is
retried up to the configured limit rather than stopping. -/
theorem rename_failure_classified_like_any_error (osErr : String) (ra : Nat)
    (hrec : isUnrecoverableError ("failed to move downloaded file: " ++ osErr) = false) :
    (∀ (fs : FileSys) (resp : DownloadResponse)
        (renamer : String → String → Option String) (localPath : String),
      resp.ok = true → resp.readErr = none →
      renamer (localPath ++ ".tmp" ++ ".tmp") (localPath ++ ".tmp") = none →
      renamer (localPath ++ ".tmp") localPath = some osErr →
      (performDownload fs "huggingface" resp localPath renamer).2.2 =
        some ("failed to move downloaded file: " ++ osErr)) ∧
    (downloadModel none
        (fun _ => .failure ("failed to move downloaded file: " ++ osErr)) ra).1 = ra := by
  constructor
  · intro fs resp renamer localPath hok hre hr1 hr2
    unfold performDownload hfClientDownloadFile goDownloadFile
    simp [hok, hre, hr1, hr2]
  · obtain ⟨e', he'⟩ := loopGo_skip
      (fun _ => .failure ("failed to move downloaded file: " ++ osErr)) ra 0 ra none
      (fun j _ => ⟨"failed to move downloaded file: " ++ osErr, rfl, hrec⟩)
      (le_refl ra)
    simpa [loopGo, Nat.sub_self] using he'

/-- Witness for the amended C5 at the cross-device error and the default
limit. -/
theorem rename_failure_classified_like_any_error_witness :
    (downloadModel none
        (fun _ => .failure ("failed to move downloaded file: " ++ "invalid cross-device link"))
        3).1 = 3 :=
  (rename_failure_classified_like_any_error "invalid cross-device link" 3 (by decide)).2

/-! ## Claim C1 — no continuation offset is sent and resume corrupts length -/

/-- C1: neither client's download request carries any `Range` header (the
outgoing request advertises no continuation offset at all), so restarting
the interrupted transfer of `fs0` — five staged bytes, a ten-byte declared
total — appends the full body and publishes a fifteen-byte final file
instead of the declared ten bytes. -/
theorem resume_sends_no_offset_and_inflates_file :
    (∀ token url,
      ((hfDownloadFileRequest token url).headers.map Prod.fst).contains "Range"
        = false) ∧
    (∀ token url,
      ((civitDownloadFileRequest token url).headers.map Prod.fst).contains "Range"
        = false) ∧
    fs0 "m/checkpoints/a.safetensors.tmp.tmp" = some [9, 9, 9, 9, 9] ∧
    (performDownload fs0 "huggingface" resp10 "m/checkpoints/a.safetensors"
        okRename).1 "m/checkpoints/a.safetensors"
      = some [9, 9, 9, 9, 9, 0, 1, 2, 3, 4, 5, 6, 7, 8, 9] ∧
    (performDownload fs0 "huggingface" resp10 "m/checkpoints/a.safetensors"
        okRename).2.2 = none := by
  refine ⟨?_, ?_, by decide, by decide, by decide⟩
  · intro t u
    unfold hfDownloadFileRequest
    by_cases h : t = "" <;> simp [h, List.contains]
  · intro t u
    unfold civitDownloadFileRequest
    by_cases h : t = ""
    · simp [h, List.contains]
    · by_cases h2 : strContainsSub u "token=" = true <;> simp [h, h2, List.contains]

/-! ## Claim C2 — staging actually uses a double .tmp and two renames -/

/-- C2 counterexample: on a fresh filesystem the in-flight bytes of job
`m/a` are written to `m/a.tmp.tmp`, not to the claimed staging path
`m/a.tmp`, and success publishes through two renames, not one. -/
theorem staging_path_counterexample :
    (performDownload fsEmpty "huggingface" resp10 "m/a" okRename).2.1 =
      [FsEvent.write "m/a.tmp.tmp" [0, 1, 2, 3, 4, 5, 6, 7, 8, 9],
       FsEvent.rename "m/a.tmp.tmp" "m/a.tmp",
       FsEvent.rename "m/a.tmp" "m/a"] ∧
    FsEvent.write "m/a.tmp" [0, 1, 2, 3, 4, 5, 6, 7, 8, 9] ∉
      (performDownload fsEmpty "huggingface" resp10 "m/a" okRename).2.1 ∧
    "m/a.tmp.tmp" ≠ "m/a.tmp" := by
  refine ⟨by decide, by decide, by decide⟩

/-- C2 as amended: every in-flight byte of a job goes to
`<finalPath>.tmp.tmp` (the helper appends a second `.tmp` to the staging
path it is handed), and full success publishes through two renames —
`<finalPath>.tmp.tmp` to `<finalPath>.tmp`, then `<finalPath>.tmp` to the
final path, whose contents are the prior staging bytes followed by the
streamed chunks. -/
theorem staging_double_tmp_and_two_renames (fs : FileSys) (chunks : List (List Nat))
    (localPath : String) :
    (performDownload fs "huggingface" (okResp chunks) localPath okRename).2.1 =
      chunks.map (fun c => FsEvent.write (localPath ++ ".tmp" ++ ".tmp") c) ++
        [FsEvent.rename (localPath ++ ".tmp" ++ ".tmp") (localPath ++ ".tmp"),
         FsEvent.rename (localPath ++ ".tmp") localPath] ∧
    (performDownload fs "huggingface" (okResp chunks) localPath okRename).2.2 = none ∧
    (performDownload fs "huggingface" (okResp chunks) localPath okRename).1 localPath =
      some ((match fs (localPath ++ ".tmp" ++ ".tmp") with
              | some c => c
              | none => []) ++ chunks.flatten) := by
  obtain ⟨hw1, hw2⟩ := writeChunks_spec (localPath ++ ".tmp" ++ ".tmp") chunks
    (match fs (localPath ++ ".tmp" ++ ".tmp") with | some c => c | none => [])
  unfold performDownload hfClientDownloadFile goDownloadFile okResp okRename
  simp [hw1, hw2]

/-! ## Claim C8 — resolver priority and the gated hash fallback -/

/-- C8 counterexample: the reference carries hash `abc` and both name
searches miss, yet with no CivitAI credential configured the resolver never
issues the hash-indexed lookup — contradicting the claim that a
hash-carrying reference always gets the hash fallback. -/
theorem hash_fallback_requires_token_counterexample :
    mC8.hash = "abc" ∧
    cfgC8.civitAIToken = "" ∧
    (searchModel cfgC8 hfEmpty cvEmpty bhNone mC8).1 =
      [Query.hfQ "model" "checkpoints", Query.civitQ "model" "checkpoints"] ∧
    Query.hashQ "abc" ∉ (searchModel cfgC8 hfEmpty cvEmpty bhNone mC8).1 ∧
    (searchModel cfgC8 hfEmpty cvEmpty bhNone mC8).2 = none := by
  refine ⟨rfl, rfl, by decide, by decide, by decide⟩

/-- C8 as amended: the resolver queries registry A first exactly when a
credential is configured, then registry B, taking the first returned match
of the first registry yielding one; the hash-indexed lookup runs only when
neither name search matched, the reference carries a hash, AND a CivitAI
credential is configured; and references without any match are simply
absent from the (error-free) output mapping. -/
theorem search_priority_and_gated_hash_fallback (cfg : Config)
    (hf cv : String → String → Except String (List SearchResult))
    (bh : String → Except String (Option SearchResult)) (model : Model) :
    searchModel cfg hf cv bh model =
      (specQueries cfg hf cv model, specChoice cfg hf cv bh model) ∧
    (∀ models : List Model,
      (∀ m ∈ models, (searchModel cfg hf cv bh m).2 = none) →
      searchModels cfg hf cv bh models = []) := by
  constructor
  · unfold searchModel specQueries specChoice specHfMatch specCivitMatch
    dsimp only
    repeat' split
    all_goals simp_all
  · intro models
    induction models with
    | nil => intro _; rfl
    | cons m rest ih =>
      intro hall
      have hm := hall m (List.mem_cons_self m rest)
      have ih2 := ih (fun x hx => hall x (List.mem_cons_of_mem m hx))
      simp [searchModels, hm, ih2]

/-- Witness for the amended C8 at the counterexample fixture. -/
theorem search_priority_and_gated_hash_fallback_witness :
    searchModel cfgC8 hfEmpty cvEmpty bhNone mC8 =
      (specQueries cfgC8 hfEmpty cvEmpty mC8,
        specChoice cfgC8 hfEmpty cvEmpty bhNone mC8) :=
  (search_priority_and_gated_hash_fallback cfgC8 hfEmpty cvEmpty bhNone mC8).1

/-! ## Claim C9 — the progress snapshot is a shallow copy -/

/-- C9 counterexample: a snapshot taken before a progress update maps `m`
to the record at address 0, whose `Downloaded` field then changes from 0 to
5 under the caller's feet — the snapshot entry does not stay unchanged as
claimed. -/
theorem snapshot_entry_mutates_counterexample :
    GetProgress s0 = [("m", 0)] ∧
    (s0.heap 0).downloaded = 0 ∧
    ((progressUpdate s0 0 5 10 0).heap 0).downloaded = 5 := by
  refine ⟨rfl, rfl, by decide⟩

/-- C9 as amended: the snapshot copies only the map structure — the
name-to-pointer association a snapshot returned is never altered by a
progress update, but the pointed-to records are shared, so an update to an
artifact's transfer state is visible through any previously returned
snapshot entry. -/
theorem snapshot_is_shallow_copy (s : DMState) (addr : Nat) (d t r : Int) :
    GetProgress (progressUpdate s addr d t r) = GetProgress s ∧
    ((progressUpdate s addr d t r).heap addr).downloaded = d + r ∧
    ((progressUpdate s addr d t r).heap addr).total = t ∧
    ((progressUpdate s addr d t r).heap addr).completed = (s.heap addr).completed := by
  refine ⟨rfl, ?_, ?_, ?_⟩ <;> simp [progressUpdate]

end CMM
